import Mathlib

/-!
Verification development for the DAWM BERTMasker model code
(`Replication Code/dawm/bertmasker_lcr.py`) and the book/hotel data reader
(`data_processing/data_book_hotel.py`).

The tensor computations of the model are embedded as real-valued functions
on `Fin L`-indexed vectors (one batch example at a time; the batch dimension
is an outer quantifier).  The data reader is embedded as computable functions
on `List Char` / `List ℕ` with `Except` for Python exceptions.
-/

noncomputable section

/-- Softmax along a two-way axis, first component: `exp a / (exp a + exp b)`.
The second component is `softmax2 b a`. -/
def softmax2 (a b : ℝ) : ℝ := Real.exp a / (Real.exp a + Real.exp b)

/-- Embedding of `gumbel_softmax` of `bertmasker_lcr.py` at one position, for a
fixed Gumbel-noise sample `(g1, g2)`: the two components of
`softmax((log logits + samples) / tau, dim=-1)` for the 2-way logits
`(l1, l2)`. -/
def gumbel_softmax (l1 l2 g1 g2 τ : ℝ) : ℝ × ℝ :=
  (softmax2 ((Real.log l1 + g1) / τ) ((Real.log l2 + g2) / τ),
   softmax2 ((Real.log l2 + g2) / τ) ((Real.log l1 + g1) / τ))

/-- Embedding of `torch.round`: round half to even (banker's rounding). -/
def roundHalfEven (x : ℝ) : ℤ :=
  if Int.fract x = 1 / 2 then (if Even ⌊x⌋ then ⌊x⌋ else ⌊x⌋ + 1) else round x

/-- Line 221 of `bertmasker_lcr.py`:
`Ps = gumbel_softmax(logits=pi, tau=self.temp) - self.masking` (one position,
both components; `m` is `self.masking`). -/
def sharedGatePs (l1 l2 g1 g2 τ m : ℝ) : ℝ × ℝ :=
  ((gumbel_softmax l1 l2 g1 g2 τ).1 - m, (gumbel_softmax l1 l2 g1 g2 τ).2 - m)

/-- Line 222: `Ph = torch.round(Ps)`. -/
def sharedGatePh (l1 l2 g1 g2 τ m : ℝ) : ℝ × ℝ :=
  (((roundHalfEven (sharedGatePs l1 l2 g1 g2 τ m).1 : ℤ) : ℝ),
   ((roundHalfEven (sharedGatePs l1 l2 g1 g2 τ m).2 : ℤ) : ℝ))

/-- Line 223: `P = Ph.detach() - Ps.detach() + Ps`.  `detach` is the identity
in the forward direction, so the forward value is `Ph - Ps + Ps`. -/
def sharedGateP (l1 l2 g1 g2 τ m : ℝ) : ℝ × ℝ :=
  ((sharedGatePh l1 l2 g1 g2 τ m).1 - (sharedGatePs l1 l2 g1 g2 τ m).1 +
     (sharedGatePs l1 l2 g1 g2 τ m).1,
   (sharedGatePh l1 l2 g1 g2 τ m).2 - (sharedGatePs l1 l2 g1 g2 τ m).2 +
     (sharedGatePs l1 l2 g1 g2 τ m).2)

/-- Lines 226-228: the structural-token indicator for one example.  `zeros` is
initialised to `0` and `scatter_` writes `1` at index `segsum - 1` (where
`segsum` is the sum of the segment mask) and at index `0`. -/
def sharedZeros (L segsum : ℕ) : Fin L → ℝ :=
  fun i => if i.val = 0 ∨ i.val = segsum - 1 then 1 else 0

/-- Lines 231-233: masked input embeddings for one example.
`embedded_inputs = (1 - P[:,0]) * input_embedding + P[:,0] * mask_embedding`,
then `embedded_inputs * (1 - zeros) + input_embedding * zeros`.
`P0 i` is the first gate component at position `i`. -/
def sharedMaskedInputs {L D : ℕ} (P0 : Fin L → ℝ) (input_embedding : Fin L → Fin D → ℝ)
    (mask_embedding : Fin D → ℝ) (zeros : Fin L → ℝ) : Fin L → Fin D → ℝ :=
  fun i d =>
    ((1 - P0 i) * input_embedding i d + P0 i * mask_embedding d) * (1 - zeros i) +
      input_embedding i d * zeros i

/-- Embedding of `softmask_with_mask` of `bertmasker_lcr.py` for one example
and one feature coordinate: `exp(inputs) * masks * (1 - zeros)` divided by its
sum over the sequence dimension plus `1e-9`. -/
def softmask_with_mask {L : ℕ} (inputs masks zeros : Fin L → ℝ) : Fin L → ℝ :=
  fun i =>
    Real.exp (inputs i) * masks i * (1 - zeros i) /
      ((∑ j, Real.exp (inputs j) * masks j * (1 - zeros j)) + 1e-9)

/-- Line 253: `sum = torch.sum(P[:,:,0] * segments_tensor * (1 - zeros), dim=1)`
for one example (also the numerator of `mask_perc`, line 268). -/
def sharedPoolSum {L : ℕ} (P0 : Fin L → ℝ) (seg : Fin L → ℕ) (zeros : Fin L → ℝ) : ℝ :=
  ∑ i, P0 i * (seg i : ℝ) * (1 - zeros i)

/-- Lines 252-255: the private pooled vector for one example.
`condition = (sum == 0)` and
`private_rep2 = torch.sum(P[:,:,0] * hidden * segments * (1 - zeros), dim=1)
/ (sum + condition.float())`. -/
def sharedPrivateRep2 {L D : ℕ} (P0 : Fin L → ℝ) (seg : Fin L → ℕ) (zeros : Fin L → ℝ)
    (hidden : Fin L → Fin D → ℝ) : Fin D → ℝ :=
  fun d =>
    (∑ i, (P0 i * hidden i d) * (seg i : ℝ) * (1 - zeros i)) /
      (sharedPoolSum P0 seg zeros +
        (if sharedPoolSum P0 seg zeros = 0 then (1 : ℝ) else 0))

/-- Denominator of `mask_perc` (line 268):
`torch.sum(segments_tensor * (1 - zeros), dim=1)` for one example. -/
def sharedMaskPercDenom {L : ℕ} (seg : Fin L → ℕ) (zeros : Fin L → ℝ) : ℝ :=
  ∑ i, (seg i : ℝ) * (1 - zeros i)

/-- Line 268: `mask_perc` for one example. -/
def sharedMaskPerc {L : ℕ} (P0 : Fin L → ℝ) (seg : Fin L → ℕ) (zeros : Fin L → ℝ) : ℝ :=
  sharedPoolSum P0 seg zeros / sharedMaskPercDenom seg zeros

/-- Per-position first gate component as computed in `SharedPart.forward`:
`P[:, :, 0]`, where the per-position logits are `(pi1 i, pi2 i)` and the fixed
noise sample is `(g1 i, g2 i)`. -/
def sharedGateP0 {L : ℕ} (pi1 pi2 g1 g2 : Fin L → ℝ) (τ m : ℝ) : Fin L → ℝ :=
  fun i => (sharedGateP (pi1 i) (pi2 i) (g1 i) (g2 i) τ m).1

/-- The `mask_perc` value returned by `SharedPart.forward` for one example,
assembled from the gate, the segment mask and the derived structural mask. -/
def forwardMaskPerc {L : ℕ} (pi1 pi2 g1 g2 : Fin L → ℝ) (τ m : ℝ) (seg : Fin L → ℕ) : ℝ :=
  sharedMaskPerc (sharedGateP0 pi1 pi2 g1 g2 τ m) seg (sharedZeros L (∑ i, seg i))

end

/-! Embedding of `data_processing/data_book_hotel.py`.  Strings are modeled as
`List Char`; Python exceptions as `Except (List Char)`. -/

/-- Model of the regex word class `\w` (ASCII): letters, digits, underscore. -/
def isWordChar (c : Char) : Bool := c.isAlphanum || c == '_'

/-- Plain (substring) match of `t` at index `i` of `s`. -/
def matchAt (s t : List Char) (i : Nat) : Bool := (s.drop i).take t.length == t

/-- Word boundary to the left of index `i` of `s`. -/
def boundaryBefore (s : List Char) (i : Nat) : Bool :=
  i == 0 || !isWordChar (s.getD (i - 1) ' ')

/-- Word boundary to the right of the match of length `len` starting at `i`. -/
def boundaryAfter (s : List Char) (i len : Nat) : Bool :=
  i + len == s.length || !isWordChar (s.getD (i + len) ' ')

/-- Whole-word match of `t` at index `i` of `s`: the regex
`r'\b' + re.escape(target) + r'\b'` of `replace_nth_occurrence`. -/
def wordMatchAt (s t : List Char) (i : Nat) : Bool :=
  matchAt s t i && boundaryBefore s i && boundaryAfter s i t.length

/-- Left-to-right non-overlapping scan of `re.finditer`, returning the start
positions of all whole-word matches; `fuel` bounds the scan. -/
def findWordMatches : Nat → List Char → List Char → Nat → List Nat
  | 0, _, _, _ => []
  | fuel + 1, s, t, i =>
    if i + t.length ≤ s.length then
      if wordMatchAt s t i then i :: findWordMatches fuel s t (i + max t.length 1)
      else findWordMatches fuel s t (i + 1)
    else []

/-- Start positions of the whole-word matches of `t` in `s`
(`list(re.finditer(pattern, sentence))` in `replace_nth_occurrence`). -/
def reFinditer (s t : List Char) : List Nat := findWordMatches (s.length + 1) s t 0

/-- Model of `str.lower`. -/
def lowerStr (s : List Char) : List Char := s.map Char.toLower

/-- Model of `str.find(t, start)`: the least index `i ≥ start` where `t`
occurs in `s`, as an `Option` instead of `-1`. -/
def strFind (s t : List Char) (start : Nat) : Option Nat :=
  ((List.range (s.length + 1)).filter (fun i => decide (start ≤ i) && matchAt s t i)).head?

/-- The search loop of `replace_nth_occurrence2`: find the `k`-th occurrence
of `old` in `s2` scanning from `start`, stepping `old.length` past each hit. -/
def findNthFrom : Nat → List Char → List Char → Nat → Nat → Option Nat
  | 0, _, _, _, _ => none
  | fuel + 1, s2, old, start, k =>
    match strFind s2 old start with
    | none => none
    | some i => if k ≤ 1 then some i else findNthFrom fuel s2 old (i + old.length) (k - 1)

/-- Embedding of `replace_nth_occurrence2` of `data_book_hotel.py`: the
case-insensitive (the sentence alone is lowercased) substring fallback.  If
the phrase does not occur `n` times the sentence is returned unchanged.  The
degenerate call `n = 0` skips the search loop and splices at position `0`. -/
def replace_nth_occurrence2 (sentence old_phrase new_phrase : List Char) (n : Nat) :
    List Char :=
  if n = 0 then new_phrase ++ sentence.drop old_phrase.length
  else
    match findNthFrom n (lowerStr sentence) old_phrase 0 n with
    | none => sentence
    | some start => sentence.take start ++ new_phrase ++ sentence.drop (start + old_phrase.length)

/-- Embedding of `replace_nth_occurrence` of `data_book_hotel.py` for `n ≥ 1`
(the corpus occurrence attribute): replace the `n`-th whole-word match of
`target`, falling back to `replace_nth_occurrence2` when there are fewer than
`n` whole-word matches. -/
def replace_nth_occurrence (sentence target replacement : List Char) (n : Nat) : List Char :=
  let ms := reFinditer sentence target
  if ms.length < n then replace_nth_occurrence2 sentence target replacement n
  else
    let start := ms.getD (n - 1) 0
    sentence.take start ++ replacement ++ sentence.drop (start + target.length)

/-- Embedding of the `window` generator: the first window is the first `size`
elements; each later element `e` turns window `w` into `w[1:] + [e]`.  Valid
(in the source: raises) only when `size ≤ l.length`, which callers check. -/
def window {α : Type} (l : List α) (size : Nat) : List (List α) :=
  (l.drop size).scanl (fun win e => win.drop 1 ++ [e]) (l.take size)

/-- Model of `' '.join(...)`. -/
def joinSpace (l : List (List Char)) : List Char := List.intercalate [' '] l

/-- Model of the Python substring test `t in s`. -/
def isSubstrOf (t s : List Char) : Bool := (List.range (s.length + 1)).any (fun i => matchAt s t i)

/-- The window-scan loop of `_get_data_tuple` with its `break`: index of the
first window matching the joined lowered aspect term (by equality or by
substring containment). -/
def aspectSearchAux (pred : List (List Char) → Bool) :
    List (List (List Char)) → Nat → Option Nat
  | [], _ => none
  | w :: ws, i => if pred w then some i else aspectSearchAux pred ws (i + 1)

/-- Index of the first matching window in the aspect search of
`_get_data_tuple`. -/
def aspectSearchIdx (sptoks asp_term_in : List (List Char)) : Option Nat :=
  let asp_term := lowerStr (joinSpace asp_term_in)
  aspectSearchAux
    (fun group =>
      let g := joinSpace (group.map lowerStr)
      asp_term == g || isSubstrOf asp_term g)
    (window sptoks asp_term_in.length) 0

/-- The `aspect_is` list of `_get_data_tuple`: `range(_i, _i + len(asp))` for
the first matching window, `[]` when no window matches. -/
def aspectSearch (sptoks asp_term_in : List (List Char)) : List Nat :=
  match aspectSearchIdx sptoks asp_term_in with
  | some i => List.range' i asp_term_in.length
  | none => []

/-- The aspect term is located by the window search (the `break` fires). -/
def aspectFound (sptoks asp_term_in : List (List Char)) : Bool :=
  decide (asp_term_in.length ≤ sptoks.length) && (aspectSearchIdx sptoks asp_term_in).isSome

/-- The position-feature computation of `_get_data_tuple` cannot fail: the
window generator has enough tokens and (unless the sentence is empty) the
aspect-index list is nonempty, so `min` is taken over a nonempty list. -/
def posInfoSafe (sptoks asp_term_in : List (List Char)) : Bool :=
  decide (asp_term_in.length ≤ sptoks.length) &&
    (sptoks.isEmpty || !(aspectSearch sptoks asp_term_in).isEmpty)

/-- Embedding of `_get_data_tuple` of `data_book_hotel.py`.  Errors model, in
order: the `window` generator exhausting its iterator when the aspect has more
tokens than the sentence; `min([])` when the aspect is not located; the
explicit `ValueError` for an unknown polarity label. -/
def get_data_tuple (sptoks asp_term_in : List (List Char)) (label : List Char) :
    Except (List Char) (List Nat × Int) :=
  if sptoks.length < asp_term_in.length then
    Except.error ("RuntimeError: generator raised StopIteration".toList)
  else
    let aspect_is := aspectSearch sptoks asp_term_in
    if sptoks.length ≠ 0 ∧ aspect_is = [] then
      Except.error ("min() arg is an empty sequence".toList)
    else
      let pos_info := (List.range sptoks.length).map
        (fun j : Nat => ((aspect_is.map fun i : Nat =>
          ((j : Int) - (i : Int)).natAbs).min?).getD 0)
      if label == "negative".toList then Except.ok (pos_info, -1)
      else if label == "neutral".toList then Except.ok (pos_info, 0)
      else if label == "positive".toList then Except.ok (pos_info, 1)
      else Except.error ("Unknown label".toList)

/-- Distinct elements of a list in first-occurrence order (the key order of
`Counter(l)` under Python insertion-ordered dicts). -/
def firstOccsAux : List (List Char) → List (List Char) → List (List Char)
  | [], _ => []
  | a :: rest, seen =>
    if a ∈ seen then firstOccsAux rest seen else a :: firstOccsAux rest (a :: seen)

/-- Distinct elements of `l` in first-occurrence order. -/
def firstOccs (l : List (List Char)) : List (List Char) := firstOccsAux l []

/-- Stable insertion before the first strictly smaller count (descending). -/
def insertByCountDesc (x : List Char × Nat) :
    List (List Char × Nat) → List (List Char × Nat)
  | [] => [x]
  | y :: ys => if y.2 < x.2 then x :: y :: ys else y :: insertByCountDesc x ys

/-- Stable sort by count, descending (`sorted(..., reverse=True)` is stable). -/
def sortByCountDesc (l : List (List Char × Nat)) : List (List Char × Nat) :=
  l.foldl (fun acc x => insertByCountDesc x acc) []

/-- Model of `Counter(l).most_common()`: pairs `(word, count)` sorted by count
descending, ties in first-occurrence order. -/
def most_common (l : List (List Char)) : List (List Char × Nat) :=
  sortByCountDesc ((firstOccs l).map fun w => (w, l.count w))

/-- Dictionary lookup in an association-list model of a Python dict. -/
def lookupIdx (d : List (List Char × Nat)) (w : List Char) : Option Nat :=
  (d.find? (fun p => p.1 == w)).map (fun p => p.2)

/-- The vocabulary-building loops of `read_book_hotel`: for each counted word
in order, if absent assign the next index (`d[word] = len(d)`). -/
def buildIdx (init : List (List Char × Nat)) (counts : List (List Char × Nat)) :
    List (List Char × Nat) :=
  counts.foldl
    (fun d p => if (lookupIdx d p.1).isSome then d else d ++ [(p.1, d.length)]) init

/-- One `Opinion` XML element: polarity attribute, raw target attribute
(`none` models an absent attribute; the string `NULL` is possible), the
external tokenization of the whitespace-normalized target, and the
occurrence attribute. -/
structure Opinion where
  polarity : List Char
  target : Option (List Char)
  targetToks : List (List Char)
  occurrence : Nat

/-- One `sentence` XML element: raw text and the external tokenization of its
whitespace-normalized text, plus its opinions. -/
structure Sentence where
  text : List Char
  toks : List (List Char)
  opinions : List Opinion

/-- State of the first corpus scan of `read_book_hotel` (lines 158-186). -/
structure Pass1State where
  source_words : List (List Char)
  target_words : List (List Char)
  target_phrases : List (List Char)
  max_sent_len : Nat
  max_target_len : Nat
  count_implicit : Nat
  count_confl : Nat

/-- First-scan handling of one opinion: count conflicts, collect target words
and phrases, track the maximum target length, count implicit targets. -/
def pass1Opinion (st : Pass1State) (o : Opinion) : Pass1State :=
  if o.polarity == "conflict".toList then { st with count_confl := st.count_confl + 1 }
  else
    match o.target with
    | some asp =>
      if asp ≠ "NULL".toList then
        { st with
          target_words := st.target_words ++ o.targetToks.map lowerStr,
          target_phrases := st.target_phrases ++ [lowerStr (joinSpace o.targetToks)],
          max_target_len :=
            if o.targetToks.length > st.max_target_len then o.targetToks.length
            else st.max_target_len }
      else { st with count_implicit := st.count_implicit + 1 }
    | none => { st with count_implicit := st.count_implicit + 1 }

/-- First-scan handling of one sentence: collect lowered tokens, track the
maximum sentence length, then scan its opinions. -/
def pass1Sentence (st : Pass1State) (s : Sentence) : Pass1State :=
  s.opinions.foldl pass1Opinion
    { st with
      source_words := st.source_words ++ s.toks.map lowerStr,
      max_sent_len :=
        if s.toks.length > st.max_sent_len then s.toks.length else st.max_sent_len }

/-- The first corpus scan of `read_book_hotel`. -/
def pass1 (corpus : List Sentence) : Pass1State :=
  corpus.foldl pass1Sentence
    { source_words := [], target_words := [], target_phrases := [],
      max_sent_len := 0, max_target_len := 0, count_implicit := 0, count_confl := 0 }

/-- State of the second corpus scan of `read_book_hotel` (lines 200-236);
`outputLines` models the lines written to `out_file`. -/
structure Pass2State where
  source_data : List (List Nat)
  source_loc_data : List (List Rat)
  target_data : List Nat
  target_label : List Int
  outputLines : List (List Char)

/-- The `idx` loop (lines 208-210): look each lowered token up in the word
vocabulary; a missing key is a `KeyError`. -/
def mapLookup (swi : List (List Char × Nat)) : List (List Char) → Except (List Char) (List Nat)
  | [] => Except.ok []
  | t :: ts =>
    match lookupIdx swi (lowerStr t) with
    | none => Except.error ("KeyError".toList)
    | some k =>
      match mapLookup swi ts with
      | Except.error e => Except.error e
      | Except.ok ks => Except.ok (k :: ks)

/-- Second-scan handling of one opinion (lines 212-236): skip conflicts and
implicit targets; otherwise append `idx`, write the placeholder-substituted
sentence and the lowered target, compute the position features and label,
rescale the distances by the sentence length and append everything. -/
def pass2Opinion (tpi : List (List Char × Nat)) (text : List Char)
    (sptoks : List (List Char)) (idx : List Nat) (st : Pass2State) (o : Opinion) :
    Except (List Char) Pass2State :=
  if o.polarity == "conflict".toList then Except.ok st
  else
    match o.target with
    | some asp =>
      if asp ≠ "NULL".toList then
        let st1 := { st with
          source_data := st.source_data ++ [idx],
          outputLines := st.outputLines ++
            [replace_nth_occurrence (lowerStr text) (lowerStr asp) ("$T$".toList)
              o.occurrence,
             lowerStr asp] }
        match get_data_tuple sptoks o.targetToks o.polarity with
        | Except.error e => Except.error e
        | Except.ok (pos_info, lab) =>
          match lookupIdx tpi (lowerStr (joinSpace o.targetToks)) with
          | none => Except.error ("KeyError".toList)
          | some ti =>
            Except.ok { st1 with
              source_loc_data := st1.source_loc_data ++
                [pos_info.map fun i : Nat => 1 - ((i : Rat) / (idx.length : Rat))],
              target_data := st1.target_data ++ [ti],
              target_label := st1.target_label ++ [lab],
              outputLines := st1.outputLines ++ [(toString lab).toList] }
      else Except.ok st
    | none => Except.ok st

/-- The opinion loop of the second scan. -/
def pass2Opinions (tpi : List (List Char × Nat)) (text : List Char)
    (sptoks : List (List Char)) (idx : List Nat) (st : Pass2State) :
    List Opinion → Except (List Char) Pass2State
  | [] => Except.ok st
  | o :: os =>
    match pass2Opinion tpi text sptoks idx st o with
    | Except.error e => Except.error e
    | Except.ok st2 => pass2Opinions tpi text sptoks idx st2 os

/-- Second-scan handling of one sentence: skipped when its token list is
empty; otherwise build `idx` and run the opinion loop. -/
def pass2Sentence (swi tpi : List (List Char × Nat)) (st : Pass2State) (s : Sentence) :
    Except (List Char) Pass2State :=
  if s.toks.length ≠ 0 then
    match mapLookup swi s.toks with
    | Except.error e => Except.error e
    | Except.ok idx => pass2Opinions tpi s.text s.toks idx st s.opinions
  else Except.ok st

/-- The sentence loop of the second scan. -/
def pass2Sentences (swi tpi : List (List Char × Nat)) (st : Pass2State) :
    List Sentence → Except (List Char) Pass2State
  | [] => Except.ok st
  | s :: ss =>
    match pass2Sentence swi tpi st s with
    | Except.error e => Except.error e
    | Except.ok st2 => pass2Sentences swi tpi st2 ss

/-- The full word-count list of `read_book_hotel` (lines 187-189): a pad entry
when the passed-in count list is empty, then `most_common` of all source and
target words. -/
def fullSourceCount (source_count0 : List (List Char × Nat)) (p1 : Pass1State) :
    List (List Char × Nat) :=
  (if source_count0.length = 0 then source_count0 ++ [("<pad>".toList, 0)]
   else source_count0) ++ most_common (p1.source_words ++ p1.target_words)

/-- The tail of `read_book_hotel` after the second scan: the diagnostic prints
(whose divisions raise `ZeroDivisionError` on an opinion-free corpus or an
empty label list) and the 7-tuple `return` of line 247 paired with the
`out_file` lines. -/
def processResult (p1 : Pass1State) (st : Pass2State) :
    Except (List Char)
      ((List (List Nat) × List (List Rat) × List Nat × List Int × Nat ×
          List (List Rat) × Nat) × List (List Char)) :=
  if p1.count_implicit + p1.count_confl + st.source_data.length = 0 then
    Except.error ("ZeroDivisionError".toList)
  else if st.target_label.length = 0 then
    Except.error ("ZeroDivisionError".toList)
  else
    Except.ok ((st.source_data, st.source_loc_data, st.target_data, st.target_label,
      p1.max_sent_len, st.source_loc_data, p1.max_target_len), st.outputLines)

/-- The body of `read_book_hotel` after the file-existence guard: both corpus
scans, vocabulary building, and the result assembly of `processResult`. -/
def processCorpus (corpus : List Sentence)
    (source_count0 target_count0 swi0 tpi0 : List (List Char × Nat)) :
    Except (List Char)
      ((List (List Nat) × List (List Rat) × List Nat × List Int × Nat ×
          List (List Rat) × Nat) × List (List Char)) :=
  match pass2Sentences (buildIdx swi0 (fullSourceCount source_count0 (pass1 corpus)))
      (buildIdx tpi0 (target_count0 ++ most_common (pass1 corpus).target_phrases))
      { source_data := [], source_loc_data := [], target_data := [],
        target_label := [], outputLines := [] } corpus with
  | Except.error e => Except.error e
  | Except.ok st => processResult (pass1 corpus) st

/-- Embedding of `read_book_hotel` of `data_book_hotel.py`.  The file system
is abstracted to the boolean `isfile` (the result of `os.path.isfile`); when
the file is missing the function raises (lines 146-147; in the source the
`raise` of a plain string itself raises a `TypeError`, which still aborts)
and nothing is parsed or produced. -/
def read_book_hotel (isfile : Bool) (corpus : List Sentence)
    (source_count0 target_count0 swi0 tpi0 : List (List Char × Nat)) :
    Except (List Char)
      ((List (List Nat) × List (List Rat) × List Nat × List Int × Nat ×
          List (List Rat) × Nat) × List (List Char)) :=
  if !isfile then Except.error ("[!] Data not found".toList)
  else processCorpus corpus source_count0 target_count0 swi0 tpi0

lemma softmax2_pos (a b : ℝ) : 0 < softmax2 a b := by
  unfold softmax2; positivity

lemma softmax2_lt_one (a b : ℝ) : softmax2 a b < 1 := by
  unfold softmax2
  rw [div_lt_one (by positivity)]
  exact lt_add_of_pos_right _ (Real.exp_pos b)

lemma roundHalfEven_mem (x : ℝ) (h1 : -(1 / 2) < x) (h2 : x < 1) :
    roundHalfEven x = 0 ∨ roundHalfEven x = 1 := by
  unfold roundHalfEven
  by_cases hf : Int.fract x = 1 / 2
  · rw [if_pos hf]
    have hx : x = (⌊x⌋ : ℝ) + 1 / 2 := by
      unfold Int.fract at hf; linarith
    have hfl : ⌊x⌋ = 0 := by
      have h1' : (-1 : ℝ) < (⌊x⌋ : ℝ) := by linarith
      have h2' : ((⌊x⌋ : ℤ) : ℝ) < 1 := by linarith
      have hi1 : (-1 : ℤ) < ⌊x⌋ := by exact_mod_cast h1'
      have hi2 : ⌊x⌋ < 1 := by exact_mod_cast h2'
      omega
    rw [hfl]
    simp
  · rw [if_neg hf, round_eq]
    by_cases hlt : x < 1 / 2
    · left
      rw [Int.floor_eq_zero_iff]
      exact Set.mem_Ico.mpr ⟨by linarith, by linarith⟩
    · right
      have hle : 1 / 2 ≤ x := not_lt.mp hlt
      have hgt : 1 / 2 < x := by
        rcases eq_or_lt_of_le hle with he | h
        · exact absurd (by rw [← he]; exact Int.fract_eq_self.mpr ⟨by norm_num, by norm_num⟩) hf
        · exact h
      rw [Int.floor_eq_iff]
      push_cast
      constructor <;> linarith

lemma sharedGateP_eq_Ph (l1 l2 g1 g2 τ m : ℝ) :
    sharedGateP l1 l2 g1 g2 τ m = sharedGatePh l1 l2 g1 g2 τ m := by
  unfold sharedGateP
  simp

lemma sharedGateP_fst_mem (l1 l2 g1 g2 τ m : ℝ) (hm1 : 0 < m) (hm2 : m ≤ 1 / 2) :
    (sharedGateP l1 l2 g1 g2 τ m).1 = 0 ∨ (sharedGateP l1 l2 g1 g2 τ m).1 = 1 := by
  rw [sharedGateP_eq_Ph]
  unfold sharedGatePh sharedGatePs
  have h1 := softmax2_pos ((Real.log l1 + g1) / τ) ((Real.log l2 + g2) / τ)
  have h2 := softmax2_lt_one ((Real.log l1 + g1) / τ) ((Real.log l2 + g2) / τ)
  rcases roundHalfEven_mem ((gumbel_softmax l1 l2 g1 g2 τ).1 - m)
      (by unfold gumbel_softmax; dsimp only; linarith)
      (by unfold gumbel_softmax; dsimp only; linarith) with h | h
  · left; rw [h]; norm_num
  · right; rw [h]; norm_num

lemma sharedGateP_snd_mem (l1 l2 g1 g2 τ m : ℝ) (hm1 : 0 < m) (hm2 : m ≤ 1 / 2) :
    (sharedGateP l1 l2 g1 g2 τ m).2 = 0 ∨ (sharedGateP l1 l2 g1 g2 τ m).2 = 1 := by
  rw [sharedGateP_eq_Ph]
  unfold sharedGatePh sharedGatePs
  have h1 := softmax2_pos ((Real.log l2 + g2) / τ) ((Real.log l1 + g1) / τ)
  have h2 := softmax2_lt_one ((Real.log l2 + g2) / τ) ((Real.log l1 + g1) / τ)
  rcases roundHalfEven_mem ((gumbel_softmax l1 l2 g1 g2 τ).2 - m)
      (by unfold gumbel_softmax; dsimp only; linarith)
      (by unfold gumbel_softmax; dsimp only; linarith) with h | h
  · left; rw [h]; norm_num
  · right; rw [h]; norm_num

/-- C1 (amended: the masking offset is restricted to `0 < m ≤ 1/2`; for
`m ∈ (1/2, 1)` the rounded value can be `-1`, see the counterexample).  For
every positive 2-way logits pair, temperature `τ > 0`, masking offset
`0 < m ≤ 1/2` and fixed Gumbel-noise sample, the forward gate value `P` of
`SharedPart.forward` is numerically equal to the hard decision `Ph` in the
construction `P = Ph.detach() - Ps.detach() + Ps`, equals
`round(softmax((log logits + noise) / τ) - m)`, and lies in `{0, 1}` at both
components. -/
theorem relaxed_gate_spec (l1 l2 g1 g2 τ m : ℝ) (hl1 : 0 < l1) (hl2 : 0 < l2)
    (hτ : 0 < τ) (hm1 : 0 < m) (hm2 : m ≤ 1 / 2) :
    sharedGateP l1 l2 g1 g2 τ m = sharedGatePh l1 l2 g1 g2 τ m ∧
    (sharedGateP l1 l2 g1 g2 τ m).1 =
      ((roundHalfEven ((gumbel_softmax l1 l2 g1 g2 τ).1 - m) : ℤ) : ℝ) ∧
    (sharedGateP l1 l2 g1 g2 τ m).1 ∈ ({0, 1} : Set ℝ) ∧
    (sharedGateP l1 l2 g1 g2 τ m).2 ∈ ({0, 1} : Set ℝ) := by
  refine ⟨sharedGateP_eq_Ph l1 l2 g1 g2 τ m, ?_, ?_, ?_⟩
  · rw [sharedGateP_eq_Ph]
    unfold sharedGatePh sharedGatePs
    rfl
  · rcases sharedGateP_fst_mem l1 l2 g1 g2 τ m hm1 hm2 with h | h <;> simp [h]
  · rcases sharedGateP_snd_mem l1 l2 g1 g2 τ m hm1 hm2 with h | h <;> simp [h]

/-- Witness for C1: all hypotheses hold at the concrete input
`l1 = l2 = 1`, `g1 = g2 = 0`, `τ = 1`, `m = 1/10`. -/
theorem relaxed_gate_spec_witness :
    (0 : ℝ) < 1 ∧ (0 : ℝ) < (1 / 10 : ℝ) ∧ (1 / 10 : ℝ) ≤ 1 / 2 ∧
    ((sharedGateP 1 1 0 0 1 (1 / 10)).1 ∈ ({0, 1} : Set ℝ) ∧
      (sharedGateP 1 1 0 0 1 (1 / 10)).2 ∈ ({0, 1} : Set ℝ)) :=
  ⟨by norm_num, by norm_num, by norm_num,
    (relaxed_gate_spec 1 1 0 0 1 (1 / 10) (by norm_num) (by norm_num) (by norm_num)
      (by norm_num) (by norm_num)).2.2⟩

/-- Counterexample to C1 as stated: at logits `(1, exp 10)` (both positive),
zero noise, `τ = 1` and masking offset `m = 7/10` (inside the range `(0, 1)`
the spec allows for the offset), the forward gate value is `-1`, not in
`{0, 1}`. -/
theorem relaxed_gate_counterexample :
    (sharedGateP 1 (Real.exp 10) 0 0 1 (7 / 10)).1 ∉ ({0, 1} : Set ℝ) := by
  have hx : (gumbel_softmax 1 (Real.exp 10) 0 0 1).1 = softmax2 0 10 := by
    unfold gumbel_softmax
    norm_num [Real.log_one, Real.log_exp]
  have hσpos := softmax2_pos 0 10
  have hσlt : softmax2 0 10 < 1 / 5 := by
    unfold softmax2
    rw [div_lt_iff (by positivity)]
    have h11 : (11 : ℝ) ≤ Real.exp 10 := by
      have := Real.add_one_le_exp (10 : ℝ); linarith
    rw [Real.exp_zero]
    linarith
  have hval : (sharedGateP 1 (Real.exp 10) 0 0 1 (7 / 10)).1 = ((-1 : ℤ) : ℝ) := by
    rw [sharedGateP_eq_Ph]
    unfold sharedGatePh sharedGatePs
    dsimp only
    rw [hx]
    have hfr : Int.fract (softmax2 0 10 - 7 / 10) ≠ 1 / 2 := by
      have hfl : ⌊softmax2 0 10 - 7 / 10⌋ = -1 := by
        rw [Int.floor_eq_iff]
        push_cast
        constructor <;> linarith
      unfold Int.fract
      rw [hfl]
      push_cast
      intro h
      linarith
    have hr : roundHalfEven (softmax2 0 10 - 7 / 10) = -1 := by
      unfold roundHalfEven
      rw [if_neg hfr, round_eq, Int.floor_eq_iff]
      push_cast
      constructor <;> linarith
    rw [hr]
  rw [hval]
  simp
  norm_num

/-- C2: for every score tensor and every `{0,1}`-valued real-token mask `M`
and structural mask `Z`, the divisor of `softmask_with_mask` is positive for
all such inputs — the additive `1e-9` keeps it positive even in the
degenerate case where the masked sum is zero (which happens exactly when no
real non-structural position exists, last conjunct) — so the function never
divides by zero; the output sums exactly to `s / (s + 1e-9)` over the real
non-structural positions (the set `G`) and is exactly `0` at every position
with `M = 0` or `Z = 1`; when at least one real non-structural position
exists the masked sum itself is positive. -/
theorem softmask_with_mask_spec {L : ℕ} (inputs masks zeros : Fin L → ℝ)
    (hM : ∀ i, masks i = 0 ∨ masks i = 1) (hZ : ∀ i, zeros i = 0 ∨ zeros i = 1)
    (G : Finset (Fin L)) (hG : ∀ i, i ∈ G ↔ (masks i = 1 ∧ zeros i = 0)) :
    0 < (∑ j, Real.exp (inputs j) * masks j * (1 - zeros j)) + 1e-9 ∧
    (∑ i in G, softmask_with_mask inputs masks zeros i) =
      (∑ j, Real.exp (inputs j) * masks j * (1 - zeros j)) /
        ((∑ j, Real.exp (inputs j) * masks j * (1 - zeros j)) + 1e-9) ∧
    (∀ i, masks i = 0 ∨ zeros i = 1 → softmask_with_mask inputs masks zeros i = 0) ∧
    ((∃ i, masks i = 1 ∧ zeros i = 0) →
      0 < ∑ j, Real.exp (inputs j) * masks j * (1 - zeros j)) ∧
    ((¬ ∃ i, masks i = 1 ∧ zeros i = 0) →
      (∑ j, Real.exp (inputs j) * masks j * (1 - zeros j)) = 0) := by
  have hvanish : ∀ i, masks i = 0 ∨ zeros i = 1 →
      Real.exp (inputs i) * masks i * (1 - zeros i) = 0 := by
    rintro i (h | h) <;> rw [h] <;> ring
  have hnn : ∀ i, 0 ≤ Real.exp (inputs i) * masks i * (1 - zeros i) := by
    intro i
    rcases hM i with h | h
    · rw [h]; simp
    · rcases hZ i with h' | h'
      · rw [h, h']; simp [le_of_lt (Real.exp_pos (inputs i))]
      · rw [h, h']; simp
  have hSnn : 0 ≤ ∑ j, Real.exp (inputs j) * masks j * (1 - zeros j) :=
    Finset.sum_nonneg fun j _ => hnn j
  refine ⟨by norm_num; linarith, ?_, ?_, ?_, ?_⟩
  · unfold softmask_with_mask
    rw [← Finset.sum_div]
    congr 1
    refine Finset.sum_subset (Finset.subset_univ G) ?_
    intro i _ hiG
    apply hvanish
    rcases hM i with h | h
    · exact Or.inl h
    · rcases hZ i with h' | h'
      · exact absurd ((hG i).mpr ⟨h, h'⟩) hiG
      · exact Or.inr h'
  · intro i hi
    unfold softmask_with_mask
    rw [hvanish i hi, zero_div]
  · rintro ⟨i0, hi0M, hi0Z⟩
    have hle : Real.exp (inputs i0) * masks i0 * (1 - zeros i0) ≤
        ∑ j, Real.exp (inputs j) * masks j * (1 - zeros j) :=
      Finset.single_le_sum (fun j _ => hnn j) (Finset.mem_univ i0)
    have : 0 < Real.exp (inputs i0) * masks i0 * (1 - zeros i0) := by
      rw [hi0M, hi0Z]; simp [Real.exp_pos]
    linarith
  · intro hnone
    refine Finset.sum_eq_zero fun i _ => hvanish i ?_
    rcases hM i with h | h
    · exact Or.inl h
    · rcases hZ i with h' | h'
      · exact absurd ⟨i, h, h'⟩ hnone
      · exact Or.inr h'

/-- Witness for C2 at `L = 2`, `inputs = 0`, `M = (1, 1)`, `Z = (1, 0)`,
`G = the singleton of position 1`: the divisor is positive and the output
vanishes at the structural position. -/
theorem softmask_with_mask_spec_witness :
    (∀ i : Fin 2, (![(1 : ℝ), 1]) i = 0 ∨ (![(1 : ℝ), 1]) i = 1) ∧
    (∀ i : Fin 2, (![(1 : ℝ), 0]) i = 0 ∨ (![(1 : ℝ), 0]) i = 1) ∧
    0 < (∑ j, Real.exp ((fun _ : Fin 2 => (0 : ℝ)) j) * (![(1 : ℝ), 1]) j *
      (1 - (![(1 : ℝ), 0]) j)) + 1e-9 ∧
    (∀ i : Fin 2, (![(1 : ℝ), 1]) i = 0 ∨ (![(1 : ℝ), 0]) i = 1 →
      softmask_with_mask (fun _ => 0) (![(1 : ℝ), 1]) (![(1 : ℝ), 0]) i = 0) :=
  ⟨fun i => by fin_cases i <;> norm_num,
   fun i => by fin_cases i <;> norm_num,
   (softmask_with_mask_spec (fun _ => 0) (![(1 : ℝ), 1]) (![(1 : ℝ), 0])
      (fun i => by fin_cases i <;> norm_num)
      (fun i => by fin_cases i <;> norm_num)
      ({1} : Finset (Fin 2))
      (fun i => by fin_cases i <;> simp <;> norm_num)).1,
   (softmask_with_mask_spec (fun _ => 0) (![(1 : ℝ), 1]) (![(1 : ℝ), 0])
      (fun i => by fin_cases i <;> norm_num)
      (fun i => by fin_cases i <;> norm_num)
      ({1} : Finset (Fin 2))
      (fun i => by fin_cases i <;> simp <;> norm_num)).2.2.1⟩

/-- C3: for every example whose `{0,1}`-valued segment mask sums to at least 2,
the masked input embeddings built in `SharedPart.forward` are identical to the
original input embeddings at position `0` and at position `segsum - 1`, for
every value of the gate `P0`, and every non-structural position is the
interpolation of the original embedding toward the mask-token embedding. -/
theorem structural_token_exclusion {L D : ℕ} (seg : Fin L → ℕ) (hseg : ∀ i, seg i ≤ 1)
    (h2 : 2 ≤ ∑ i, seg i) (P0 : Fin L → ℝ) (input_embedding : Fin L → Fin D → ℝ)
    (mask_embedding : Fin D → ℝ) :
    ∃ i0 i1 : Fin L, i0.val = 0 ∧ i1.val = (∑ i, seg i) - 1 ∧ i0 ≠ i1 ∧
      (∀ d, sharedMaskedInputs P0 input_embedding mask_embedding
          (sharedZeros L (∑ i, seg i)) i0 d = input_embedding i0 d) ∧
      (∀ d, sharedMaskedInputs P0 input_embedding mask_embedding
          (sharedZeros L (∑ i, seg i)) i1 d = input_embedding i1 d) ∧
      (∀ i, sharedZeros L (∑ i, seg i) i = 0 → ∀ d,
        sharedMaskedInputs P0 input_embedding mask_embedding
          (sharedZeros L (∑ i, seg i)) i d =
          (1 - P0 i) * input_embedding i d + P0 i * mask_embedding d) := by
  have hSL : (∑ i, seg i) ≤ L := by
    calc (∑ i, seg i) ≤ ∑ _i : Fin L, 1 := Finset.sum_le_sum fun i _ => hseg i
    _ = L := by simp
  have hL : 0 < L := by omega
  refine ⟨⟨0, by omega⟩, ⟨(∑ i, seg i) - 1, by omega⟩, rfl, rfl, ?_, ?_, ?_, ?_⟩
  · intro h
    have := congrArg Fin.val h
    simp at this
    omega
  · intro d
    unfold sharedMaskedInputs sharedZeros
    rw [if_pos (Or.inl rfl)]
    ring
  · intro d
    unfold sharedMaskedInputs sharedZeros
    rw [if_pos (Or.inr rfl)]
    ring
  · intro i hz d
    unfold sharedMaskedInputs
    rw [hz]
    ring

/-- Witness for C3 at `L = 4`, `D = 1`, segment mask `(1,1,1,0)`, constant
gate `1/2`. -/
theorem structural_token_exclusion_witness :
    (∀ i : Fin 4, (![1, 1, 1, 0] : Fin 4 → ℕ) i ≤ 1) ∧
    2 ≤ ∑ i, (![1, 1, 1, 0] : Fin 4 → ℕ) i ∧
    (∃ i0 i1 : Fin 4, i0.val = 0 ∧ i1.val = (∑ i, (![1, 1, 1, 0] : Fin 4 → ℕ) i) - 1 ∧
      i0 ≠ i1 ∧
      (∀ d : Fin 1, sharedMaskedInputs (fun _ => (1 : ℝ) / 2) (fun _ _ => (2 : ℝ)) (fun _ => 5)
          (sharedZeros 4 (∑ i, (![1, 1, 1, 0] : Fin 4 → ℕ) i)) i0 d = 2) ∧
      (∀ d : Fin 1, sharedMaskedInputs (fun _ => (1 : ℝ) / 2) (fun _ _ => (2 : ℝ)) (fun _ => 5)
          (sharedZeros 4 (∑ i, (![1, 1, 1, 0] : Fin 4 → ℕ) i)) i1 d = 2) ∧
      (∀ i, sharedZeros 4 (∑ i, (![1, 1, 1, 0] : Fin 4 → ℕ) i) i = 0 → ∀ d : Fin 1,
        sharedMaskedInputs (fun _ => (1 : ℝ) / 2) (fun _ _ => (2 : ℝ)) (fun _ => 5)
          (sharedZeros 4 (∑ i, (![1, 1, 1, 0] : Fin 4 → ℕ) i)) i d =
          (1 - 1 / 2) * 2 + 1 / 2 * 5)) :=
  ⟨fun i => by fin_cases i <;> norm_num,
   by simp [Fin.sum_univ_four],
   structural_token_exclusion (![1, 1, 1, 0] : Fin 4 → ℕ)
     (fun i => by fin_cases i <;> norm_num) (by simp [Fin.sum_univ_four])
     (fun _ => (1 : ℝ) / 2) (fun _ _ => (2 : ℝ)) (fun _ => 5)⟩

/-- C4: for every example with `{0,1}`-valued gate and segment mask in which no
position simultaneously has gate value `1`, segment mask `1` and is
non-structural, the pooling divisor `sum` is `0`, the guarded divisor
`sum + (sum == 0)` is `1`, and the private pooled vector `private_rep2` is
exactly the all-zero vector (no division by zero occurs). -/
theorem degenerate_pooling {L D : ℕ} (P0 : Fin L → ℝ) (seg : Fin L → ℕ)
    (hP : ∀ i, P0 i = 0 ∨ P0 i = 1) (hseg : ∀ i, seg i ≤ 1)
    (hidden : Fin L → Fin D → ℝ)
    (hnone : ∀ i, ¬(P0 i = 1 ∧ seg i = 1 ∧ sharedZeros L (∑ j, seg j) i = 0)) :
    sharedPoolSum P0 seg (sharedZeros L (∑ j, seg j)) = 0 ∧
    sharedPoolSum P0 seg (sharedZeros L (∑ j, seg j)) +
      (if sharedPoolSum P0 seg (sharedZeros L (∑ j, seg j)) = 0 then (1 : ℝ) else 0) = 1 ∧
    ∀ d, sharedPrivateRep2 P0 seg (sharedZeros L (∑ j, seg j)) hidden d = 0 := by
  have hterm : ∀ i, P0 i * ((seg i : ℕ) : ℝ) * (1 - sharedZeros L (∑ j, seg j) i) = 0 := by
    intro i
    rcases hP i with h | h
    · rw [h]; ring
    · rcases Nat.le_one_iff_eq_zero_or_eq_one.mp (hseg i) with h' | h'
      · rw [h']; push_cast; ring
      · have hz : sharedZeros L (∑ j, seg j) i = 1 := by
          unfold sharedZeros
          by_cases hc : i.val = 0 ∨ i.val = (∑ j, seg j) - 1
          · rw [if_pos hc]
          · exact absurd ⟨h, h', by unfold sharedZeros; rw [if_neg hc]⟩ (hnone i)
        rw [hz]; ring
  have hsum : sharedPoolSum P0 seg (sharedZeros L (∑ j, seg j)) = 0 :=
    Finset.sum_eq_zero fun i _ => hterm i
  refine ⟨hsum, by rw [hsum]; simp, ?_⟩
  intro d
  unfold sharedPrivateRep2
  have hnum : (∑ i, (P0 i * hidden i d) * ((seg i : ℕ) : ℝ) *
      (1 - sharedZeros L (∑ j, seg j) i)) = 0 := by
    refine Finset.sum_eq_zero fun i _ => ?_
    have h := hterm i
    have : (P0 i * hidden i d) * ((seg i : ℕ) : ℝ) * (1 - sharedZeros L (∑ j, seg j) i) =
        hidden i d * (P0 i * ((seg i : ℕ) : ℝ) * (1 - sharedZeros L (∑ j, seg j) i)) := by
      ring
    rw [this, h, mul_zero]
  rw [hnum, hsum]
  simp

/-- Witness for C4 at `L = 2`, `D = 1`, gate constantly `0`, segment mask
`(1,1)`. -/
theorem degenerate_pooling_witness :
    (∀ i : Fin 2, (fun _ : Fin 2 => (0 : ℝ)) i = 0 ∨ (fun _ : Fin 2 => (0 : ℝ)) i = 1) ∧
    (∀ i : Fin 2, (![1, 1] : Fin 2 → ℕ) i ≤ 1) ∧
    (∀ i : Fin 2, ¬((fun _ : Fin 2 => (0 : ℝ)) i = 1 ∧ (![1, 1] : Fin 2 → ℕ) i = 1 ∧
      sharedZeros 2 (∑ j, (![1, 1] : Fin 2 → ℕ) j) i = 0)) ∧
    ∀ d : Fin 1, sharedPrivateRep2 (fun _ : Fin 2 => (0 : ℝ)) (![1, 1] : Fin 2 → ℕ)
      (sharedZeros 2 (∑ j, (![1, 1] : Fin 2 → ℕ) j)) (fun _ _ => (3 : ℝ)) d = 0 :=
  ⟨fun _ => Or.inl rfl,
   fun i => by fin_cases i <;> norm_num,
   fun i h => by norm_num at h,
   (degenerate_pooling (fun _ : Fin 2 => (0 : ℝ)) (![1, 1] : Fin 2 → ℕ)
     (fun _ => Or.inl rfl) (fun i => by fin_cases i <;> norm_num)
     (fun _ _ => (3 : ℝ)) (fun i h => by norm_num at h)).2.2⟩

lemma sharedZeros_eq_indicator {L : ℕ} (S : ℕ) (hS : 2 ≤ S) (hSL : S ≤ L) :
    ∀ i : Fin L, sharedZeros L S i =
      if i = (⟨0, by omega⟩ : Fin L) ∨ i = (⟨S - 1, by omega⟩ : Fin L) then (1 : ℝ) else 0 := by
  intro i
  unfold sharedZeros
  congr 1
  simp [Fin.ext_iff]

lemma maskPercDenom_ge_one {L : ℕ} (seg : Fin L → ℕ) (hseg : ∀ i, seg i ≤ 1)
    (h3 : 3 ≤ ∑ i, seg i) :
    (1 : ℝ) ≤ sharedMaskPercDenom seg (sharedZeros L (∑ i, seg i)) := by
  have hSL : (∑ i, seg i) ≤ L := by
    calc (∑ i, seg i) ≤ ∑ _i : Fin L, 1 := Finset.sum_le_sum fun i _ => hseg i
    _ = L := by simp
  set S := ∑ i, seg i with hS
  set i0 : Fin L := ⟨0, by omega⟩ with hi0
  set i1 : Fin L := ⟨S - 1, by omega⟩ with hi1
  have hne : i0 ≠ i1 := by
    intro h
    have := congrArg Fin.val h
    simp [hi0, hi1] at this
    omega
  have hz := sharedZeros_eq_indicator (L := L) S (by omega) hSL
  have hsplit : ∀ i : Fin L, ((seg i : ℕ) : ℝ) * (1 - sharedZeros L S i) =
      (seg i : ℝ) - ((if i = i0 then (seg i : ℝ) else 0) + (if i = i1 then (seg i : ℝ) else 0)) := by
    intro i
    rw [hz i]
    by_cases h0 : i = i0
    · have h1 : ¬ i = i1 := by rw [h0]; exact hne
      rw [if_pos (Or.inl h0), if_pos h0, if_neg h1]
      ring
    · by_cases h1 : i = i1
      · rw [if_pos (Or.inr h1), if_neg h0, if_pos h1]
        ring
      · rw [if_neg (by tauto), if_neg h0, if_neg h1]
        ring
  have hsum : sharedMaskPercDenom seg (sharedZeros L S) =
      (∑ i, (seg i : ℝ)) - ((seg i0 : ℝ) + (seg i1 : ℝ)) := by
    unfold sharedMaskPercDenom
    rw [Finset.sum_congr rfl fun i _ => hsplit i, Finset.sum_sub_distrib,
      Finset.sum_add_distrib, Finset.sum_ite_eq' Finset.univ i0 fun i => ((seg i : ℕ) : ℝ),
      Finset.sum_ite_eq' Finset.univ i1 fun i => ((seg i : ℕ) : ℝ)]
    simp
  rw [hsum]
  have hcast : (∑ i, (seg i : ℝ)) = ((S : ℕ) : ℝ) := by
    rw [hS]
    push_cast
    rfl
  have hS3 : (3 : ℝ) ≤ ((S : ℕ) : ℝ) := by exact_mod_cast h3
  have h0 : ((seg i0 : ℕ) : ℝ) ≤ 1 := by exact_mod_cast hseg i0
  have h1 : ((seg i1 : ℕ) : ℝ) ≤ 1 := by exact_mod_cast hseg i1
  rw [hcast]
  linarith

/-- C5 (amended: the segment-mask sum is required to be at least 3; with sum
exactly 2 the divisor of `mask_perc` is 0, see the counterexample).  For every
example of `SharedPart.forward` with `{0,1}`-valued segment mask summing to at
least 3, any per-position logits and noise, temperature `τ`, and masking
offset `0 < m ≤ 1/2`, the returned `mask_perc` satisfies
`0 ≤ mask_perc ≤ 1`. -/
theorem mask_perc_bounds {L : ℕ} (pi1 pi2 g1 g2 : Fin L → ℝ) (τ m : ℝ)
    (hm1 : 0 < m) (hm2 : m ≤ 1 / 2) (seg : Fin L → ℕ) (hseg : ∀ i, seg i ≤ 1)
    (h3 : 3 ≤ ∑ i, seg i) :
    0 ≤ forwardMaskPerc pi1 pi2 g1 g2 τ m seg ∧
      forwardMaskPerc pi1 pi2 g1 g2 τ m seg ≤ 1 := by
  have hD := maskPercDenom_ge_one seg hseg h3
  have hDpos : 0 < sharedMaskPercDenom seg (sharedZeros L (∑ i, seg i)) := by linarith
  set P0 := sharedGateP0 pi1 pi2 g1 g2 τ m with hP0def
  have hP0 : ∀ i, P0 i = 0 ∨ P0 i = 1 := fun i =>
    sharedGateP_fst_mem (pi1 i) (pi2 i) (g1 i) (g2 i) τ m hm1 hm2
  have hznn : ∀ i, 0 ≤ 1 - sharedZeros L (∑ j, seg j) i := by
    intro i
    unfold sharedZeros
    by_cases h : i.val = 0 ∨ i.val = (∑ j, seg j) - 1
    · rw [if_pos h]; norm_num
    · rw [if_neg h]; norm_num
  have htermnn : ∀ i, 0 ≤ ((seg i : ℕ) : ℝ) * (1 - sharedZeros L (∑ j, seg j) i) :=
    fun i => mul_nonneg (by positivity) (hznn i)
  have hnum_nn : 0 ≤ sharedPoolSum P0 seg (sharedZeros L (∑ j, seg j)) := by
    refine Finset.sum_nonneg fun i _ => ?_
    rcases hP0 i with h | h
    · rw [h]; simp
    · rw [h, one_mul]
      exact htermnn i
  have hnum_le : sharedPoolSum P0 seg (sharedZeros L (∑ j, seg j)) ≤
      sharedMaskPercDenom seg (sharedZeros L (∑ j, seg j)) := by
    refine Finset.sum_le_sum fun i _ => ?_
    rcases hP0 i with h | h
    · rw [h]
      simpa using htermnn i
    · rw [h]
      simp [mul_assoc]
  unfold forwardMaskPerc sharedMaskPerc
  constructor
  · exact div_nonneg hnum_nn (le_of_lt hDpos)
  · rw [div_le_one hDpos]
    exact hnum_le

/-- Witness for C5 at `L = 4`, segment mask `(1,1,1,0)`, constant logits and
noise, `τ = 1`, `m = 1/10`. -/
theorem mask_perc_bounds_witness :
    (0 : ℝ) < 1 / 10 ∧ (1 / 10 : ℝ) ≤ 1 / 2 ∧
    (∀ i : Fin 4, (![1, 1, 1, 0] : Fin 4 → ℕ) i ≤ 1) ∧
    3 ≤ ∑ i, (![1, 1, 1, 0] : Fin 4 → ℕ) i ∧
    (0 ≤ forwardMaskPerc (fun _ => (1 : ℝ)) (fun _ => 1) (fun _ => 0) (fun _ => 0) 1 (1 / 10)
        (![1, 1, 1, 0] : Fin 4 → ℕ) ∧
      forwardMaskPerc (fun _ => (1 : ℝ)) (fun _ => 1) (fun _ => 0) (fun _ => 0) 1 (1 / 10)
        (![1, 1, 1, 0] : Fin 4 → ℕ) ≤ 1) :=
  ⟨by norm_num, by norm_num, fun i => by fin_cases i <;> norm_num,
   by simp [Fin.sum_univ_four],
   mask_perc_bounds (fun _ => (1 : ℝ)) (fun _ => 1) (fun _ => 0) (fun _ => 0) 1 (1 / 10)
     (by norm_num) (by norm_num) (![1, 1, 1, 0] : Fin 4 → ℕ)
     (fun i => by fin_cases i <;> norm_num) (by simp [Fin.sum_univ_four])⟩

/-- Counterexample to C5 as stated: with the prefix segment mask `(1,1,0,0)`
(sum exactly 2, which the claim allows), the derived structural mask flags
both real positions, so the divisor of the `mask_perc` division
(`torch.sum(segments_tensor * (1 - zeros), dim=1)`) is `0`: the source then
computes `0/0`, which is NaN in floating point, not a value in `[0,1]`. -/
theorem mask_perc_counterexample :
    (∀ i : Fin 4, (![1, 1, 0, 0] : Fin 4 → ℕ) i ≤ 1) ∧
    2 ≤ ∑ i, (![1, 1, 0, 0] : Fin 4 → ℕ) i ∧
    sharedMaskPercDenom (![1, 1, 0, 0] : Fin 4 → ℕ)
      (sharedZeros 4 (∑ i, (![1, 1, 0, 0] : Fin 4 → ℕ) i)) = 0 := by
  refine ⟨fun i => by fin_cases i <;> norm_num, by simp [Fin.sum_univ_four], ?_⟩
  have hsum : (∑ i, (![1, 1, 0, 0] : Fin 4 → ℕ) i) = 2 := by simp [Fin.sum_univ_four]
  rw [hsum]
  unfold sharedMaskPercDenom sharedZeros
  rw [Fin.sum_univ_four]
  norm_num

/-- C6: `replace_nth_occurrence` on "The coffee was great and the coffee was
hot" with target "coffee", replacement the placeholder, and `n = 2` replaces
exactly the second whole-word occurrence, leaving the rest unchanged. -/
theorem replace_nth_occurrence_round_trip :
    replace_nth_occurrence ("The coffee was great and the coffee was hot".toList)
      ("coffee".toList) ("$T$".toList) 2 =
      ("The coffee was great and the $T$ was hot".toList) := by decide

/-- C7 (amended: the equivalence additionally needs the position-feature
computation to succeed — the aspect term located by the window search, or an
empty sentence — since `_get_data_tuple` computes the position features before
inspecting the label; see the counterexample).  Under that proviso the call
returns normally iff the label is negative/neutral/positive, and on normal
return the label maps negative to -1, neutral to 0 and positive to 1. -/
theorem label_mapping (sptoks asp_term_in : List (List Char)) (lbl : List Char)
    (h : posInfoSafe sptoks asp_term_in = true) :
    ((∃ r, get_data_tuple sptoks asp_term_in lbl = Except.ok r) ↔
      (lbl = "negative".toList ∨ lbl = "neutral".toList ∨ lbl = "positive".toList)) ∧
    (∀ pi lab, get_data_tuple sptoks asp_term_in lbl = Except.ok (pi, lab) →
      ((lbl = "negative".toList ∧ lab = -1) ∨ (lbl = "neutral".toList ∧ lab = 0) ∨
        (lbl = "positive".toList ∧ lab = 1))) := by
  unfold posInfoSafe at h
  rw [Bool.and_eq_true, Bool.or_eq_true] at h
  obtain ⟨hle, hne⟩ := h
  have hle' : asp_term_in.length ≤ sptoks.length := of_decide_eq_true hle
  have hguard : ¬(sptoks.length ≠ 0 ∧ aspectSearch sptoks asp_term_in = []) := by
    rintro ⟨hn0, hemp⟩
    rcases hne with he | he
    · exact hn0 (by simpa using List.isEmpty_iff.mp he)
    · rw [hemp] at he
      simp at he
  unfold get_data_tuple
  rw [if_neg (by omega : ¬ sptoks.length < asp_term_in.length), if_neg hguard]
  simp only [beq_iff_eq]
  split_ifs with h1 h2 h3
  · refine ⟨⟨fun _ => Or.inl h1, fun _ => ⟨_, rfl⟩⟩, ?_⟩
    intro pi lab hok
    simp only [Except.ok.injEq, Prod.mk.injEq] at hok
    exact Or.inl ⟨h1, hok.2.symm⟩
  · refine ⟨⟨fun _ => Or.inr (Or.inl h2), fun _ => ⟨_, rfl⟩⟩, ?_⟩
    intro pi lab hok
    simp only [Except.ok.injEq, Prod.mk.injEq] at hok
    exact Or.inr (Or.inl ⟨h2, hok.2.symm⟩)
  · refine ⟨⟨fun _ => Or.inr (Or.inr h3), fun _ => ⟨_, rfl⟩⟩, ?_⟩
    intro pi lab hok
    simp only [Except.ok.injEq, Prod.mk.injEq] at hok
    exact Or.inr (Or.inr ⟨h3, hok.2.symm⟩)
  · constructor
    · constructor
      · rintro ⟨r, hr⟩
        exact hr.elim
      · rintro (h | h | h)
        · exact absurd h h1
        · exact absurd h h2
        · exact absurd h h3
    · intro pi lab hok
      exact hok.elim

/-- Witness for C7: at the concrete sentence `good food` with aspect `food`
the search succeeds, and the label `neutral` makes the call return
normally. -/
theorem label_mapping_witness :
    ∃ r, get_data_tuple [("good".toList), ("food".toList)] [("food".toList)]
      ("neutral".toList) = Except.ok r :=
  (label_mapping [("good".toList), ("food".toList)] [("food".toList)]
    ("neutral".toList) (by decide)).1.mpr (Or.inr (Or.inl rfl))

/-- Counterexample to C7 as stated: for the sentence `a` and aspect `b` the
label is `negative`, yet `_get_data_tuple` does not return normally (the
position-feature `min` is taken over an empty list), so "returns normally iff
the label is one of the three strings" fails without the aspect-located
proviso. -/
theorem label_mapping_counterexample :
    ¬ ∃ r, get_data_tuple [['a']] [['b']] ("negative".toList) = Except.ok r := by
  rintro ⟨r, hr⟩
  have hfalse : (get_data_tuple [['a']] [['b']] ("negative".toList)).isOk = false := by
    decide
  rw [hr] at hfalse
  simp [Except.isOk, Except.toBool] at hfalse

/-- C9: `_get_data_tuple` is partial: on the concrete sentence `hello world`
with aspect `goodbye` (neither equal to nor a substring of any window) it
raises the empty-`min` error even for a valid label; and every normal return
requires the window search to have located the aspect term. -/
theorem get_data_tuple_partiality :
    (get_data_tuple [("hello".toList), ("world".toList)] [("goodbye".toList)]
        ("negative".toList) =
      Except.error ("min() arg is an empty sequence".toList)) ∧
    (∀ sptoks asp_term_in lbl r,
      get_data_tuple sptoks asp_term_in lbl = Except.ok r →
      aspectFound sptoks asp_term_in = true) := by
  constructor
  · rfl
  · intro sptoks asp lbl r hok
    unfold get_data_tuple at hok
    by_cases hlen : sptoks.length < asp.length
    · rw [if_pos hlen] at hok
      exact Except.noConfusion hok
    · rw [if_neg hlen] at hok
      by_cases hguard : sptoks.length ≠ 0 ∧ aspectSearch sptoks asp = []
      · rw [if_pos hguard] at hok
        exact Except.noConfusion hok
      · unfold aspectFound
        rw [Bool.and_eq_true]
        refine ⟨decide_eq_true (by omega), ?_⟩
        cases hidx : aspectSearchIdx sptoks asp with
        | some i => rfl
        | none =>
          have hempty : aspectSearch sptoks asp = [] := by
            unfold aspectSearch
            rw [hidx]
          have hzero : sptoks.length = 0 := by
            by_contra hnz
            exact hguard ⟨hnz, hempty⟩
          have hsp : sptoks = [] := List.length_eq_zero.mp hzero
          have hasp : asp = [] := by
            refine List.length_eq_zero.mp ?_
            omega
          rw [hsp, hasp] at hidx
          exact absurd hidx (by decide)

/-- Witness for C9: on `good food` with aspect `food` and label `positive` the
call returns normally, so by the theorem the search located the aspect. -/
theorem get_data_tuple_partiality_witness :
    aspectFound [("good".toList), ("food".toList)] [("food".toList)] = true :=
  get_data_tuple_partiality.2 [("good".toList), ("food".toList)] [("food".toList)]
    ("positive".toList) ([1, 0], 1) rfl

/-- C8: when the input corpus file does not exist, `read_book_hotel` raises
(aborts with an error) without parsing or producing anything; when it exists,
the file-not-found branch is not taken and the function is exactly the rest of
the computation. -/
theorem read_book_hotel_file_guard (corpus : List Sentence)
    (source_count0 target_count0 swi0 tpi0 : List (List Char × Nat)) :
    read_book_hotel false corpus source_count0 target_count0 swi0 tpi0 =
      Except.error ("[!] Data not found".toList) ∧
    read_book_hotel true corpus source_count0 target_count0 swi0 tpi0 =
      processCorpus corpus source_count0 target_count0 swi0 tpi0 :=
  ⟨rfl, rfl⟩

lemma aspectSearchAux_bounds (pred : List (List Char) → Bool) :
    ∀ (ws : List (List (List Char))) (i j : Nat),
      aspectSearchAux pred ws i = some j → i ≤ j ∧ j < i + ws.length := by
  intro ws
  induction ws with
  | nil =>
    intro i j h
    exact absurd h (by simp [aspectSearchAux])
  | cons w ws ih =>
    intro i j h
    unfold aspectSearchAux at h
    by_cases hp : pred w = true
    · rw [if_pos hp] at h
      injection h with h
      subst h
      rw [List.length_cons]
      omega
    · rw [if_neg hp] at h
      obtain ⟨h1, h2⟩ := ih (i + 1) j h
      rw [List.length_cons]
      omega

lemma window_length {α : Type} (l : List α) (size : Nat) :
    (window l size).length = l.length - size + 1 := by
  unfold window
  rw [List.length_scanl, List.length_drop]

lemma aspectSearch_mem_lt (sptoks asp : List (List Char))
    (hle : asp.length ≤ sptoks.length) :
    ∀ a ∈ aspectSearch sptoks asp, a < sptoks.length := by
  intro a ha
  unfold aspectSearch at ha
  cases hidx : aspectSearchIdx sptoks asp with
  | none =>
    rw [hidx] at ha
    exact absurd ha (List.not_mem_nil a)
  | some j =>
    rw [hidx] at ha
    simp only [aspectSearchIdx] at hidx
    have hb := aspectSearchAux_bounds _ _ 0 j hidx
    rw [window_length] at hb
    obtain ⟨i, hi, rfl⟩ := List.mem_range'.mp ha
    omega

lemma min?_getD_mem (l : List Nat) (hne : l ≠ []) : l.min?.getD 0 ∈ l := by
  cases hmin : l.min? with
  | none => exact absurd (List.min?_eq_none_iff.mp hmin) hne
  | some m =>
    simp only [Option.getD_some]
    exact List.min?_mem (fun a b => min_choice a b) hmin

lemma get_data_tuple_pos_info_lt (sptoks asp : List (List Char)) (lbl : List Char)
    (pi : List Nat) (lab : Int)
    (h : get_data_tuple sptoks asp lbl = Except.ok (pi, lab)) :
    ∀ x ∈ pi, x < sptoks.length := by
  unfold get_data_tuple at h
  by_cases hlen : sptoks.length < asp.length
  · rw [if_pos hlen] at h
    exact absurd h (by simp)
  · rw [if_neg hlen] at h
    by_cases hguard : sptoks.length ≠ 0 ∧ aspectSearch sptoks asp = []
    · rw [if_pos hguard] at h
      exact absurd h (by simp)
    · rw [if_neg hguard] at h
      have hpi : pi = (List.range sptoks.length).map
          (fun j : Nat => ((aspectSearch sptoks asp).map fun i : Nat =>
            ((j : Int) - (i : Int)).natAbs).min?.getD 0) := by
        split_ifs at h <;> simp only [Except.ok.injEq, Prod.mk.injEq] at h
        · exact h.1.symm
        · exact h.1.symm
        · exact h.1.symm
      subst hpi
      intro x hx
      simp only [List.mem_map, List.mem_range] at hx
      obtain ⟨j, hj, rfl⟩ := hx
      have hlen0 : sptoks.length ≠ 0 := by omega
      have hne : aspectSearch sptoks asp ≠ [] := by
        rcases not_and_or.mp hguard with h0 | h0
        · exact absurd hlen0 h0
        · exact h0
      have hmem := min?_getD_mem
        ((aspectSearch sptoks asp).map fun i : Nat => ((j : Int) - (i : Int)).natAbs)
        (fun hm => hne (List.map_eq_nil.mp hm))
      obtain ⟨a, hain, heq⟩ := List.mem_map.mp hmem
      have halt := aspectSearch_mem_lt sptoks asp (by omega) a hain
      rw [← heq]
      omega

lemma mapLookup_length (swi : List (List Char × Nat)) :
    ∀ (ts : List (List Char)) (ks : List Nat),
      mapLookup swi ts = Except.ok ks → ks.length = ts.length := by
  intro ts
  induction ts with
  | nil =>
    intro ks h
    unfold mapLookup at h
    injection h with h
    subst h
    rfl
  | cons t ts ih =>
    intro ks h
    unfold mapLookup at h
    cases hl : lookupIdx swi (lowerStr t) with
    | none =>
      rw [hl] at h
      exact absurd h (by simp)
    | some k =>
      rw [hl] at h
      cases hrest : mapLookup swi ts with
      | error e =>
        rw [hrest] at h
        exact absurd h (by simp)
      | ok ks2 =>
        rw [hrest] at h
        injection h with h
        subst h
        simp [ih ks2 hrest]

lemma pass2Opinion_loc (tpi : List (List Char × Nat)) (text : List Char)
    (sptoks : List (List Char)) (idx : List Nat) (st st2 : Pass2State) (o : Opinion)
    (hlen : idx.length = sptoks.length)
    (h : pass2Opinion tpi text sptoks idx st o = Except.ok st2) :
    st2.source_loc_data = st.source_loc_data ∨
      ∃ newl, st2.source_loc_data = st.source_loc_data ++ [newl] ∧
        ∀ x ∈ newl, ∃ d n : Nat, d < n ∧ x = 1 - (d : ℚ) / (n : ℚ) := by
  unfold pass2Opinion at h
  by_cases hconf : (o.polarity == "conflict".toList) = true
  · rw [if_pos hconf] at h
    injection h with h
    subst h
    exact Or.inl rfl
  · rw [if_neg hconf] at h
    cases hasp : o.target with
    | none =>
      rw [hasp] at h
      dsimp only at h
      injection h with h
      subst h
      exact Or.inl rfl
    | some asp =>
      rw [hasp] at h
      dsimp only at h
      by_cases hnull : asp ≠ "NULL".toList
      · rw [if_pos hnull] at h
        cases hgd : get_data_tuple sptoks o.targetToks o.polarity with
        | error e =>
          rw [hgd] at h
          exact absurd h (by simp)
        | ok pr =>
          obtain ⟨pos_info, lab⟩ := pr
          rw [hgd] at h
          cases hti : lookupIdx tpi (lowerStr (joinSpace o.targetToks)) with
          | none =>
            rw [hti] at h
            exact absurd h (by simp)
          | some ti =>
            rw [hti] at h
            injection h with h
            subst h
            right
            refine ⟨_, rfl, ?_⟩
            intro x hx
            simp only [List.mem_map] at hx
            obtain ⟨i, hi, rfl⟩ := hx
            have hbound := get_data_tuple_pos_info_lt sptoks o.targetToks o.polarity
              pos_info lab hgd i hi
            exact ⟨i, idx.length, by omega, rfl⟩
      · rw [if_neg hnull] at h
        injection h with h
        subst h
        exact Or.inl rfl

lemma pass2Opinions_loc (tpi : List (List Char × Nat)) (text : List Char)
    (sptoks : List (List Char)) (idx : List Nat) (hlen : idx.length = sptoks.length) :
    ∀ (os : List Opinion) (st st2 : Pass2State),
      pass2Opinions tpi text sptoks idx st os = Except.ok st2 →
      (∀ l ∈ st.source_loc_data, ∀ x ∈ l, ∃ d n : Nat, d < n ∧ x = 1 - (d : ℚ) / (n : ℚ)) →
      (∀ l ∈ st2.source_loc_data, ∀ x ∈ l, ∃ d n : Nat, d < n ∧ x = 1 - (d : ℚ) / (n : ℚ)) := by
  intro os
  induction os with
  | nil =>
    intro st st2 h hinv
    unfold pass2Opinions at h
    injection h with h
    subst h
    exact hinv
  | cons o os ih =>
    intro st st2 h hinv
    unfold pass2Opinions at h
    cases hop : pass2Opinion tpi text sptoks idx st o with
    | error e =>
      rw [hop] at h
      exact absurd h (by simp)
    | ok stm =>
      rw [hop] at h
      refine ih stm st2 h ?_
      rcases pass2Opinion_loc tpi text sptoks idx st stm o hlen hop with
        heq | ⟨newl, heq, hnew⟩
      · rw [heq]
        exact hinv
      · rw [heq]
        intro l hl
        rcases List.mem_append.mp hl with hl | hl
        · exact hinv l hl
        · rw [List.mem_singleton.mp hl]
          exact hnew

lemma pass2Sentence_loc (swi tpi : List (List Char × Nat)) (st st2 : Pass2State)
    (s : Sentence) (h : pass2Sentence swi tpi st s = Except.ok st2)
    (hinv : ∀ l ∈ st.source_loc_data, ∀ x ∈ l, ∃ d n : Nat, d < n ∧ x = 1 - (d : ℚ) / (n : ℚ)) :
    ∀ l ∈ st2.source_loc_data, ∀ x ∈ l, ∃ d n : Nat, d < n ∧ x = 1 - (d : ℚ) / (n : ℚ) := by
  unfold pass2Sentence at h
  by_cases hne : s.toks.length ≠ 0
  · rw [if_pos hne] at h
    cases hml : mapLookup swi s.toks with
    | error e =>
      rw [hml] at h
      exact absurd h (by simp)
    | ok idx =>
      rw [hml] at h
      exact pass2Opinions_loc tpi s.text s.toks idx (mapLookup_length swi s.toks idx hml)
        s.opinions st st2 h hinv
  · rw [if_neg hne] at h
    injection h with h
    subst h
    exact hinv

lemma pass2Sentences_loc (swi tpi : List (List Char × Nat)) :
    ∀ (ss : List Sentence) (st st2 : Pass2State),
      pass2Sentences swi tpi st ss = Except.ok st2 →
      (∀ l ∈ st.source_loc_data, ∀ x ∈ l, ∃ d n : Nat, d < n ∧ x = 1 - (d : ℚ) / (n : ℚ)) →
      (∀ l ∈ st2.source_loc_data, ∀ x ∈ l, ∃ d n : Nat, d < n ∧ x = 1 - (d : ℚ) / (n : ℚ)) := by
  intro ss
  induction ss with
  | nil =>
    intro st st2 h hinv
    unfold pass2Sentences at h
    injection h with h
    subst h
    exact hinv
  | cons s ss ih =>
    intro st st2 h hinv
    unfold pass2Sentences at h
    cases hs : pass2Sentence swi tpi st s with
    | error e =>
      rw [hs] at h
      exact absurd h (by simp)
    | ok stm =>
      rw [hs] at h
      exact ih stm st2 h (pass2Sentence_loc swi tpi st stm s hs hinv)

lemma processResult_shape (p1 : Pass1State) (st : Pass2State)
    (res : List (List Nat) × List (List Rat) × List Nat × List Int × Nat ×
      List (List Rat) × Nat)
    (out : List (List Char))
    (h : processResult p1 st = Except.ok (res, out)) :
    res = (st.source_data, st.source_loc_data, st.target_data, st.target_label,
      p1.max_sent_len, st.source_loc_data, p1.max_target_len) := by
  unfold processResult at h
  split_ifs at h
  injection h with hpair
  injection hpair with h1 h2
  exact h1.symm

/-- C10: every successful call of `read_book_hotel` returns a 7-tuple whose
2nd and 6th components are the same `source_loc_data` value, whose 5th
component is `max_sent_len` and whose 7th is `max_target_len` (both as
computed by the first corpus scan); and every entry of every list appended to
`source_loc_data` has the form `1 - d / n` for a token distance `d < n`
(`n` the sentence length), hence lies in `[0, 1]`. -/
theorem read_book_hotel_output_shape (corpus : List Sentence)
    (source_count0 target_count0 swi0 tpi0 : List (List Char × Nat))
    (res : List (List Nat) × List (List Rat) × List Nat × List Int × Nat ×
      List (List Rat) × Nat)
    (out : List (List Char))
    (h : read_book_hotel true corpus source_count0 target_count0 swi0 tpi0 =
      Except.ok (res, out)) :
    res.2.1 = res.2.2.2.2.2.1 ∧
    res.2.2.2.2.1 = (pass1 corpus).max_sent_len ∧
    res.2.2.2.2.2.2 = (pass1 corpus).max_target_len ∧
    ∀ l ∈ res.2.1, ∀ x ∈ l, (0 ≤ x ∧ x ≤ 1) ∧
      ∃ d n : Nat, d < n ∧ x = 1 - (d : ℚ) / (n : ℚ) := by
  rw [show read_book_hotel true corpus source_count0 target_count0 swi0 tpi0 =
    processCorpus corpus source_count0 target_count0 swi0 tpi0 from rfl] at h
  unfold processCorpus at h
  split at h
  · exact absurd h (by simp)
  · rename_i st hps
    have hres := processResult_shape (pass1 corpus) st res out h
    subst hres
    refine ⟨rfl, rfl, rfl, ?_⟩
    intro l hl x hx
    obtain ⟨d, n, hdn, hx2⟩ := pass2Sentences_loc _ _ corpus _ st hps
      (fun l2 hl2 => absurd hl2 (List.not_mem_nil l2)) l hl x hx
    have hn0 : 0 < n := by omega
    have hnq : (0 : ℚ) < (n : ℚ) := by exact_mod_cast hn0
    have hdq : (d : ℚ) < (n : ℚ) := by exact_mod_cast hdn
    have hlt : (d : ℚ) / (n : ℚ) < 1 := (div_lt_one hnq).mpr hdq
    have hge : 0 ≤ (d : ℚ) / (n : ℚ) := div_nonneg (by positivity) (le_of_lt hnq)
    exact ⟨⟨by rw [hx2]; linarith, by rw [hx2]; linarith⟩, d, n, hdn, hx2⟩

/-- Witness for C10: a one-sentence corpus (text `food`, aspect `food`,
polarity positive, occurrence 1) on which `read_book_hotel` succeeds; the
single distance feature of the result satisfies the bounds. -/
theorem read_book_hotel_output_shape_witness :
    0 ≤ 1 - ((0 : ℕ) : ℚ) / ((1 : ℕ) : ℚ) ∧ 1 - ((0 : ℕ) : ℚ) / ((1 : ℕ) : ℚ) ≤ 1 :=
  ((read_book_hotel_output_shape
    [{ text := "food".toList, toks := ["food".toList],
       opinions := [{ polarity := "positive".toList, target := some ("food".toList),
                      targetToks := ["food".toList], occurrence := 1 }] }]
    [] [] [] []
    (([[1]], [[1 - ((0 : ℕ) : ℚ) / ((1 : ℕ) : ℚ)]], [0], [1], 1,
      [[1 - ((0 : ℕ) : ℚ) / ((1 : ℕ) : ℚ)]], 1))
    ["$T$".toList, "food".toList, "1".toList]
    rfl).2.2.2
    [1 - ((0 : ℕ) : ℚ) / ((1 : ℕ) : ℚ)] (List.mem_singleton.mpr rfl)
    (1 - ((0 : ℕ) : ℚ) / ((1 : ℕ) : ℚ)) (List.mem_singleton.mpr rfl)).1
